import Mathlib

/-! Verification of the audio-quality quiz component
    (`src/Component/AudioQuiz.tsx`).

    The TypeScript component is shallowly embedded: pure helpers become Lean
    functions, the React refs and hook state become an explicit state record,
    and the asynchronous ffmpeg calls become an oracle telling which transcode
    steps succeed.  All definitions follow the source; theorems about them
    settle the specification claims. -/

/-- The three quality variants offered by the quiz (`QuizTrackQuality`). -/
inductive Quality
  | mp3_128
  | mp3_320
  | original
deriving DecidableEq, Repr

/-- String form of a quality tag, as it appears inside track identifiers. -/
def Quality.str : Quality → String
  | .mp3_128 => "mp3_128"
  | .mp3_320 => "mp3_320"
  | .original => "original"

/-- Embedding of `QUALITY_LABEL_MAP`. -/
def qualityLabel : Quality → String
  | .mp3_128 => "mp3 128K"
  | .mp3_320 => "mp3 320K"
  | .original => "オリジナル"

/-- Embedding of `createTrackId`. -/
def createTrackId (base : String) (quality : Quality) : String :=
  base ++ "-" ++ quality.str

/-- Embedding of `QuizTrack`. -/
structure QuizTrack where
  id : String
  quality : Quality
  fileName : String
  url : String
deriving DecidableEq, Repr

/-- The user-selected `File`: its display name and declared MIME type. -/
structure InputAsset where
  name : String
  mime : String
deriving DecidableEq, Repr

/-- Feedback tone (`'success' | 'error'`). -/
inductive Tone
  | success
  | error
deriving DecidableEq, Repr

/-- Embedding of `FeedbackState`. -/
structure FeedbackState where
  text : String
  tone : Tone
deriving DecidableEq, Repr

/-- Embedding of `MAX_PLAY_SECONDS`. -/
def MAX_PLAY_SECONDS : Nat := 120

/-- JavaScript `String.prototype.lastIndexOf` for a single character:
    the greatest index holding `c`, or `-1` when `c` does not occur. -/
def lastIndexOf (c : Char) : List Char → Int
  | [] => -1
  | a :: rest =>
    let r := lastIndexOf c rest
    if 0 ≤ r then r + 1
    else if a = c then 0 else -1

/-- Embedding of the `baseFileName` memo: name up to the last dot when that
    dot sits at a positive index, otherwise the whole name; `upload` when no
    file is selected. -/
def baseFileName : Option InputAsset → String
  | none => "upload"
  | some f =>
    let d := lastIndexOf '.' f.name.data
    if 0 < d then ⟨f.name.data.take d.toNat⟩ else f.name

/-- Embedding of the `originalExtension` memo: name after the last dot when
    that dot sits at a positive index, otherwise the sentinel `orig`. -/
def originalExtension : Option InputAsset → String
  | none => "orig"
  | some f =>
    let d := lastIndexOf '.' f.name.data
    if 0 < d then ⟨f.name.data.drop (d.toNat + 1)⟩ else "orig"

/-- Modelled from the spec: "extension = substring after last `.`, or a
    sentinel if absent" — the substring after the last dot, `none` when no
    dot occurs at all. -/
def specExtension (name : String) : Option String :=
  let d := lastIndexOf '.' name.data
  if 0 ≤ d then some ⟨name.data.drop (d.toNat + 1)⟩ else none

theorem lastIndexOf_neg_iff (c : Char) (s : List Char) :
    lastIndexOf c s < 0 ↔ c ∉ s := by
  induction s with
  | nil => simp [lastIndexOf]
  | cons a rest ih =>
    simp only [lastIndexOf, List.mem_cons]
    by_cases hr : 0 ≤ lastIndexOf c rest
    · simp only [if_pos hr]
      constructor
      · intro h; exact absurd h (by omega)
      · intro h
        have hneg : lastIndexOf c rest < 0 := ih.mpr (fun hm => h (Or.inr hm))
        omega
    · by_cases hac : a = c
      · simp [if_neg hr, if_pos hac, hac]
      · simp only [if_neg hr, if_neg hac]
        rw [not_le] at hr
        rw [ih] at hr
        constructor
        · intro _ h
          rcases h with h | h
          · exact hac h.symm
          · exact hr h
        · intro _; omega

theorem lastIndexOf_nonneg_decomp (c : Char) (s : List Char)
    (h : 0 ≤ lastIndexOf c s) :
    s.take (lastIndexOf c s).toNat ++ c :: s.drop ((lastIndexOf c s).toNat + 1) = s ∧
    c ∉ s.drop ((lastIndexOf c s).toNat + 1) := by
  induction s with
  | nil => simp [lastIndexOf] at h
  | cons a rest ih =>
    by_cases hr : 0 ≤ lastIndexOf c rest
    · have hv : lastIndexOf c (a :: rest) = lastIndexOf c rest + 1 := by
        simp [lastIndexOf, if_pos hr]
      rcases ih hr with ⟨hdec, hnot⟩
      have htn : (lastIndexOf c rest + 1).toNat = (lastIndexOf c rest).toNat + 1 := by
        omega
      constructor
      · rw [hv, htn]
        simpa [List.take_succ_cons, List.drop_succ_cons] using congrArg (a :: ·) hdec
      · rw [hv, htn]
        simpa [List.drop_succ_cons] using hnot
    · by_cases hac : a = c
      · have hv : lastIndexOf c (a :: rest) = 0 := by
          simp [lastIndexOf, if_neg hr, if_pos hac]
        have hnot : c ∉ rest := by
          rw [← lastIndexOf_neg_iff c rest]; omega
        constructor
        · rw [hv]; simp [hac]
        · rw [hv]; simpa using hnot
      · have hv : lastIndexOf c (a :: rest) = -1 := by
          simp [lastIndexOf, if_neg hr, if_neg hac]
        rw [hv] at h; omega

/-! ## Resource Ledger (`objectUrlsRef` and `revokeTrackUrls`)

    `objectUrlsRef.current` is a JS `Set` of object-URL locators; `revoked`
    records, in order, every locator ever passed to `URL.revokeObjectURL`. -/

/-- The Resource Ledger state. -/
structure Ledger where
  live : List String
  revoked : List String
deriving DecidableEq, Repr

/-- Embedding of `objectUrlsRef.current.add(url)` — a JS `Set` add, so a
    locator already in the live set is not added again. -/
def registerUrl (l : Ledger) (u : String) : Ledger :=
  if u ∈ l.live then l else { l with live := l.live ++ [u] }

/-- Embedding of `revokeTrackUrls`: revoke every live locator, then clear
    the live set. -/
def releaseAll (l : Ledger) : Ledger :=
  { live := [], revoked := l.revoked ++ l.live }

theorem registerUrl_nodup (l : Ledger) (u : String) (h : l.live.Nodup) :
    (registerUrl l u).live.Nodup := by
  unfold registerUrl
  by_cases hm : u ∈ l.live
  · simpa [hm] using h
  · simp only [if_neg hm]
    simpa [List.nodup_append] using ⟨h, hm⟩

/-! ## Playback Controller (`handlePlay`, `getAudioRef` handlers)

    `audioRefs.current` is an association list from track id to its
    `HTMLAudioElement`; `playing` is `playingTrackIdRef.current`.  The
    `timeupdate` and `ended` listener bodies installed by `getAudioRef`
    are embedded as the `tick` and `ended` events. -/

/-- The observable state of one `HTMLAudioElement`. -/
structure AudioElem where
  paused : Bool
  currentTime : ℚ
deriving DecidableEq, Repr

/-- The Playback Controller state. -/
structure PlayerState where
  audios : List (String × AudioElem)
  playing : Option String
deriving DecidableEq, Repr

/-- JavaScript record access `audioRefs.current[trackId]`. -/
def lookupId {β : Type} (k : String) : List (String × β) → Option β
  | [] => none
  | (a, b) :: rest => if a = k then some b else lookupId k rest

/-- Apply an update to every entry of the audio map, keyed by track id
    (the `for (const [id, audio] of Object.entries(...))` loops). -/
def updAudios (l : List (String × AudioElem)) (g : String → AudioElem → AudioElem) :
    List (String × AudioElem) :=
  l.map fun p => (p.1, g p.1 p.2)

/-- Embedding of `handlePlay`: `ok` tells whether `target.play()` succeeds.
    Every element other than the target — and on a same-track toggle the
    target too — is paused with its position reset; a non-toggle play resets
    the target position and starts it. -/
def handlePlay (s : PlayerState) (trackId : String) (ok : Bool) : PlayerState :=
  match lookupId trackId s.audios with
  | none => s
  | some _ =>
    if s.playing = some trackId then
      { audios := updAudios s.audios fun _ _ => ⟨true, 0⟩
        playing := none }
    else
      { audios := updAudios s.audios fun id _ =>
          if id = trackId then ⟨!ok, 0⟩ else ⟨true, 0⟩
        playing := if ok then some trackId else none }

/-- Embedding of the `ended` listener (`endedHandler`), together with the
    element's own transition to `paused` when playback reaches its end. -/
def handleEnded (s : PlayerState) (trackId : String) : PlayerState :=
  match lookupId trackId s.audios with
  | none => s
  | some _ =>
    { audios := updAudios s.audios fun id a =>
        if id = trackId then ⟨true, 0⟩ else a
      playing := if s.playing = some trackId then none else s.playing }

/-- Embedding of a `timeupdate` notification carrying the element's new
    position `t`, followed by the `limitHandler` body: at or past
    `MAX_PLAY_SECONDS` the element is paused and reset and the controller
    returns to idle. -/
def handleTick (s : PlayerState) (trackId : String) (t : ℚ) : PlayerState :=
  match lookupId trackId s.audios with
  | none => s
  | some _ =>
    if (MAX_PLAY_SECONDS : ℚ) ≤ t then
      { audios := updAudios s.audios fun id a =>
          if id = trackId then ⟨true, 0⟩ else a
        playing := if s.playing = some trackId then none else s.playing }
    else
      { audios := updAudios s.audios fun id a =>
          if id = trackId then ⟨a.paused, t⟩ else a
        playing := s.playing }

/-- One user-visible playback event. -/
inductive PlayEvent
  | play (trackId : String) (ok : Bool)
  | ended (trackId : String)
  | tick (trackId : String) (t : ℚ)

/-- Dispatch one playback event. -/
def stepEvent (s : PlayerState) : PlayEvent → PlayerState
  | .play trackId ok => handlePlay s trackId ok
  | .ended trackId => handleEnded s trackId
  | .tick trackId t => handleTick s trackId t

/-- Run a sequence of playback events. -/
def runEvents (s : PlayerState) (es : List PlayEvent) : PlayerState :=
  es.foldl stepEvent s

/-- Number of audio elements currently sounding (not paused). -/
def soundingCount (s : PlayerState) : Nat :=
  (s.audios.filter fun p => !p.2.paused).length

/-- The duration-cap invariant: a sounding element sits strictly below the
    120-second cap. -/
def capInv (s : PlayerState) : Prop :=
  ∀ p ∈ s.audios, p.2.paused = false → p.2.currentTime < (MAX_PLAY_SECONDS : ℚ)

theorem lookupId_updAudios (k : String) (l : List (String × AudioElem))
    (g : String → AudioElem → AudioElem) :
    lookupId k (updAudios l g) = (lookupId k l).map (g k) := by
  induction l with
  | nil => simp [lookupId, updAudios]
  | cons p rest ih =>
    by_cases h : p.1 = k
    · simp [lookupId, updAudios, h]
    · simpa [lookupId, updAudios, h] using ih

theorem keys_updAudios (l : List (String × AudioElem))
    (g : String → AudioElem → AudioElem) :
    (updAudios l g).map Prod.fst = l.map Prod.fst := by
  induction l with
  | nil => rfl
  | cons p rest _ => simp [updAudios]

theorem keys_stepEvent (s : PlayerState) (e : PlayEvent) :
    (stepEvent s e).audios.map Prod.fst = s.audios.map Prod.fst := by
  cases e with
  | play trackId ok =>
    simp only [stepEvent, handlePlay]
    cases lookupId trackId s.audios with
    | none => rfl
    | some a =>
      by_cases h : s.playing = some trackId <;>
        simp [h, keys_updAudios]
  | ended trackId =>
    simp only [stepEvent, handleEnded]
    cases lookupId trackId s.audios with
    | none => rfl
    | some a => simp [keys_updAudios]
  | tick trackId t =>
    simp only [stepEvent, handleTick]
    cases lookupId trackId s.audios with
    | none => rfl
    | some a =>
      by_cases h : (MAX_PLAY_SECONDS : ℚ) ≤ t <;> simp [h, keys_updAudios]


theorem updAudios_updAudios (l : List (String × AudioElem))
    (g g' : String → AudioElem → AudioElem) :
    updAudios (updAudios l g) g' = updAudios l (fun id a => g' id (g id a)) := by
  simp [updAudios, List.map_map, Function.comp]

theorem sounding_updAudios_le (l : List (String × AudioElem))
    (g : String → AudioElem → AudioElem)
    (hg : ∀ id a, (g id a).paused = false → a.paused = false) :
    ((updAudios l g).filter fun p => !p.2.paused).length ≤
      (l.filter fun p => !p.2.paused).length := by
  rw [← List.countP_eq_length_filter, ← List.countP_eq_length_filter, updAudios,
    List.countP_map]
  apply List.countP_mono_left
  intro p _ hp
  have hfalse : (g p.1 p.2).paused = false := by
    revert hp; simp [Function.comp]
  have := hg p.1 p.2 hfalse
  simp [this]

theorem sounding_updAudios_le_one (l : List (String × AudioElem)) (tid : String)
    (g : String → AudioElem → AudioElem)
    (hnd : (l.map Prod.fst).Nodup)
    (hg : ∀ id a, id ≠ tid → (g id a).paused = true) :
    ((updAudios l g).filter fun p => !p.2.paused).length ≤ 1 := by
  rw [← List.countP_eq_length_filter, updAudios, List.countP_map]
  calc l.countP ((fun p => !p.2.paused) ∘ fun p => (p.1, g p.1 p.2))
      ≤ l.countP (fun p => p.1 == tid) := by
        apply List.countP_mono_left
        intro p _ hp
        have heq : p.1 = tid := by
          by_contra hne
          have := hg p.1 p.2 hne
          simp [Function.comp, this] at hp
        simp [heq]
    _ = (l.map Prod.fst).countP (fun x => x == tid) := by
        rw [List.countP_map]; rfl
    _ = (l.map Prod.fst).count tid := rfl
    _ ≤ 1 := List.nodup_iff_count_le_one.mp hnd tid

theorem soundingCount_step (s : PlayerState) (e : PlayEvent)
    (hnd : (s.audios.map Prod.fst).Nodup)
    (h : soundingCount s ≤ 1) :
    soundingCount (stepEvent s e) ≤ 1 := by
  cases e with
  | play trackId ok =>
    rcases hlk : lookupId trackId s.audios with _ | a
    · simpa [stepEvent, handlePlay, hlk] using h
    · by_cases hp : s.playing = some trackId
      · have hle := sounding_updAudios_le s.audios (fun _ _ => ⟨true, 0⟩)
          (by intro id a hfa; simp at hfa)
        simp only [stepEvent, handlePlay, hlk, if_pos hp, soundingCount] at h ⊢
        exact le_trans hle h
      · have h1 := sounding_updAudios_le_one s.audios trackId
          (fun id _ => if id = trackId then ⟨!ok, 0⟩ else ⟨true, 0⟩) hnd
          (by intro id a hid; simp [hid])
        simp only [stepEvent, handlePlay, hlk, if_neg hp, soundingCount]
        exact h1
  | ended trackId =>
    rcases hlk : lookupId trackId s.audios with _ | a
    · simpa [stepEvent, handleEnded, hlk] using h
    · have hle := sounding_updAudios_le s.audios
        (fun id a => if id = trackId then ⟨true, 0⟩ else a)
        (by
          intro id a hfa
          by_cases hid : id = trackId
          · simp [hid] at hfa
          · simpa [hid] using hfa)
      simp only [stepEvent, handleEnded, hlk, soundingCount] at h ⊢
      exact le_trans hle h
  | tick trackId t =>
    rcases hlk : lookupId trackId s.audios with _ | a
    · simpa [stepEvent, handleTick, hlk] using h
    · by_cases hcap : (MAX_PLAY_SECONDS : ℚ) ≤ t
      · have hle := sounding_updAudios_le s.audios
          (fun id a => if id = trackId then ⟨true, 0⟩ else a)
          (by
            intro id a hfa
            by_cases hid : id = trackId
            · simp [hid] at hfa
            · simpa [hid] using hfa)
        simp only [stepEvent, handleTick, hlk, if_pos hcap, soundingCount] at h ⊢
        exact le_trans hle h
      · have hle := sounding_updAudios_le s.audios
          (fun id a => if id = trackId then ⟨a.paused, t⟩ else a)
          (by
            intro id a hfa
            by_cases hid : id = trackId
            · simpa [hid] using hfa
            · simpa [hid] using hfa)
        simp only [stepEvent, handleTick, hlk, if_neg hcap, soundingCount] at h ⊢
        exact le_trans hle h

theorem soundingCount_run (s : PlayerState) (es : List PlayEvent)
    (hnd : (s.audios.map Prod.fst).Nodup)
    (h : soundingCount s ≤ 1) :
    soundingCount (runEvents s es) ≤ 1 := by
  induction es generalizing s with
  | nil => exact h
  | cons e rest ih =>
    have hnd1 : ((stepEvent s e).audios.map Prod.fst).Nodup := by
      rw [keys_stepEvent]; exact hnd
    exact ih (stepEvent s e) hnd1 (soundingCount_step s e hnd h)

theorem capInv_step (s : PlayerState) (e : PlayEvent) (h : capInv s) :
    capInv (stepEvent s e) := by
  cases e with
  | play trackId ok =>
    rcases hlk : lookupId trackId s.audios with _ | a
    · simpa [stepEvent, handlePlay, hlk] using h
    · by_cases hp : s.playing = some trackId
      · simp only [stepEvent, handlePlay, hlk, if_pos hp]
        intro p hp'
        rcases List.mem_map.mp hp' with ⟨q, _, rfl⟩
        intro hfalse; simp at hfalse
      · simp only [stepEvent, handlePlay, hlk, if_neg hp]
        intro p hp'
        rcases List.mem_map.mp hp' with ⟨q, _, rfl⟩
        by_cases hid : q.1 = trackId
        · intro _
          simp only [hid, if_pos rfl]
          norm_num [MAX_PLAY_SECONDS]
        · intro hfalse
          simp [hid] at hfalse
  | ended trackId =>
    rcases hlk : lookupId trackId s.audios with _ | a
    · simpa [stepEvent, handleEnded, hlk] using h
    · simp only [stepEvent, handleEnded, hlk]
      intro p hp'
      rcases List.mem_map.mp hp' with ⟨q, hq, rfl⟩
      by_cases hid : q.1 = trackId
      · intro hfalse; simp [hid] at hfalse
      · simpa [hid] using h q hq
  | tick trackId t =>
    rcases hlk : lookupId trackId s.audios with _ | a
    · simpa [stepEvent, handleTick, hlk] using h
    · by_cases hcap : (MAX_PLAY_SECONDS : ℚ) ≤ t
      · simp only [stepEvent, handleTick, hlk, if_pos hcap]
        intro p hp'
        rcases List.mem_map.mp hp' with ⟨q, hq, rfl⟩
        by_cases hid : q.1 = trackId
        · intro hfalse; simp [hid] at hfalse
        · simpa [hid] using h q hq
      · simp only [stepEvent, handleTick, hlk, if_neg hcap]
        intro p hp'
        rcases List.mem_map.mp hp' with ⟨q, hq, rfl⟩
        by_cases hid : q.1 = trackId
        · intro _
          simp only [hid, if_pos rfl]
          rw [not_le] at hcap
          exact hcap
        · simpa [hid] using h q hq

theorem capInv_run (s : PlayerState) (es : List PlayEvent) (h : capInv s) :
    capInv (runEvents s es) := by
  induction es generalizing s with
  | nil => exact h
  | cons e rest ih => exact ih (stepEvent s e) (capInv_step s e h)

/-- A two-track playback state with both elements paused, used to instantiate
    the playback theorems. -/
def samplePlayer : PlayerState :=
  ⟨[("a", ⟨true, 0⟩), ("b", ⟨true, 0⟩)], none⟩

/-- A playback state in which track `a` is sounding near the cap. -/
def sampleSounding : PlayerState :=
  ⟨[("a", ⟨false, 119⟩)], some "a"⟩

/-- C2: from any playback state whose audio map has distinct keys and at most
    one sounding element, every sequence of play/ended/timeupdate events keeps
    at most one element sounding; and `play(A)` followed by `play(B)` for
    distinct registered tracks leaves `B` sounding from position zero, `A`
    paused with position reset to zero, and at most one element sounding. -/
theorem single_active_playback (s : PlayerState) (es : List PlayEvent)
    (A B : String) (a b : AudioElem)
    (hnd : (s.audios.map Prod.fst).Nodup)
    (hinv : soundingCount s ≤ 1)
    (hA : lookupId A s.audios = some a)
    (hB : lookupId B s.audios = some b)
    (hAB : A ≠ B) :
    soundingCount (runEvents s es) ≤ 1 ∧
    (handlePlay (handlePlay s A true) B true).playing = some B ∧
    lookupId B (handlePlay (handlePlay s A true) B true).audios = some ⟨false, 0⟩ ∧
    lookupId A (handlePlay (handlePlay s A true) B true).audios = some ⟨true, 0⟩ ∧
    soundingCount (handlePlay (handlePlay s A true) B true) ≤ 1 := by
  have hBA : B ≠ A := fun h => hAB h.symm
  have hP2 : ∀ (s' : PlayerState) (x : AudioElem),
      lookupId B s'.audios = some x → s'.playing ≠ some B →
      handlePlay s' B true =
        ⟨updAudios s'.audios (fun id _ => if id = B then ⟨false, 0⟩ else ⟨true, 0⟩),
          some B⟩ := by
    intro s' x hx hne
    simp [handlePlay, hx, hne]
  have key : handlePlay (handlePlay s A true) B true =
      ⟨updAudios s.audios (fun id _ => if id = B then ⟨false, 0⟩ else ⟨true, 0⟩),
        some B⟩ := by
    by_cases hp : s.playing = some A
    · have h1 : handlePlay s A true =
          ⟨updAudios s.audios fun _ _ => ⟨true, 0⟩, none⟩ := by
        simp [handlePlay, hA, hp]
      rw [h1, hP2 ⟨updAudios s.audios fun _ _ => ⟨true, 0⟩, none⟩ ⟨true, 0⟩
        (by rw [lookupId_updAudios, hB]; rfl) (by simp), updAudios_updAudios]
    · have h1 : handlePlay s A true =
          ⟨updAudios s.audios fun id _ => if id = A then ⟨false, 0⟩ else ⟨true, 0⟩,
            some A⟩ := by
        simp [handlePlay, hA, hp]
      rw [h1, hP2 ⟨updAudios s.audios fun id _ => if id = A then ⟨false, 0⟩ else ⟨true, 0⟩,
          some A⟩ (if B = A then ⟨false, 0⟩ else ⟨true, 0⟩)
        (by rw [lookupId_updAudios, hB]; rfl) (by simp [hAB]), updAudios_updAudios]
  have haud : (handlePlay (handlePlay s A true) B true).audios =
      updAudios s.audios (fun id _ => if id = B then ⟨false, 0⟩ else ⟨true, 0⟩) := by
    rw [key]
  refine ⟨soundingCount_run s es hnd hinv, ?_, ?_, ?_, ?_⟩
  · rw [key]
  · rw [haud, lookupId_updAudios, hB]
    simp
  · rw [haud, lookupId_updAudios, hA]
    simp [hAB]
  · rw [key]
    exact sounding_updAudios_le_one s.audios B
      (fun id _ => if id = B then ⟨false, 0⟩ else ⟨true, 0⟩) hnd
      (by intro id x hid; simp [hid])

theorem single_active_playback_witness :
    (samplePlayer.audios.map Prod.fst).Nodup ∧
    soundingCount samplePlayer ≤ 1 ∧
    ("a" : String) ≠ "b" ∧
    (soundingCount (runEvents samplePlayer [PlayEvent.play "a" true]) ≤ 1 ∧
      (handlePlay (handlePlay samplePlayer "a" true) "b" true).playing = some "b" ∧
      lookupId "b" (handlePlay (handlePlay samplePlayer "a" true) "b" true).audios =
        some ⟨false, 0⟩ ∧
      lookupId "a" (handlePlay (handlePlay samplePlayer "a" true) "b" true).audios =
        some ⟨true, 0⟩ ∧
      soundingCount (handlePlay (handlePlay samplePlayer "a" true) "b" true) ≤ 1) :=
  ⟨by decide, by decide, by decide,
    single_active_playback samplePlayer [PlayEvent.play "a" true] "a" "b"
      ⟨true, 0⟩ ⟨true, 0⟩ (by decide) (by decide) (by decide) (by decide) (by decide)⟩

/-- C3: the below-cap invariant holds along every event sequence — a sounding
    element never has position at or past 120 seconds — and a `timeupdate`
    that reaches the cap on the sounding track pauses it, resets its position
    to zero and returns the controller to idle. -/
theorem duration_cap_enforced (s : PlayerState) (es : List PlayEvent)
    (trackId : String) (t : ℚ) (a : AudioElem)
    (hinv : capInv s)
    (hlk : lookupId trackId s.audios = some a)
    (hpl : s.playing = some trackId)
    (ht : (MAX_PLAY_SECONDS : ℚ) ≤ t) :
    capInv (runEvents s es) ∧
    (handleTick s trackId t).playing = none ∧
    lookupId trackId (handleTick s trackId t).audios = some ⟨true, 0⟩ := by
  refine ⟨capInv_run s es hinv, ?_, ?_⟩
  · simp [handleTick, hlk, ht, hpl]
  · simp [handleTick, hlk, ht, lookupId_updAudios]

theorem duration_cap_enforced_witness :
    capInv sampleSounding ∧
    lookupId "a" sampleSounding.audios = some ⟨false, 119⟩ ∧
    sampleSounding.playing = some "a" ∧
    (MAX_PLAY_SECONDS : ℚ) ≤ 120 ∧
    (capInv (runEvents sampleSounding [PlayEvent.tick "a" 120]) ∧
      (handleTick sampleSounding "a" 120).playing = none ∧
      lookupId "a" (handleTick sampleSounding "a" 120).audios = some ⟨true, 0⟩) :=
  ⟨by norm_num [capInv, sampleSounding, MAX_PLAY_SECONDS], by decide, by decide,
    by norm_num [MAX_PLAY_SECONDS],
    duration_cap_enforced sampleSounding [PlayEvent.tick "a" 120] "a" 120
      ⟨false, 119⟩ (by norm_num [capInv, sampleSounding, MAX_PLAY_SECONDS])
      (by decide) (by decide) (by norm_num [MAX_PLAY_SECONDS])⟩

/-- C10: calling `play` on the currently sounding track acts as a stop — every
    element (the track itself included) is paused with its position reset to
    zero and the controller returns to idle. -/
theorem play_same_track_toggles_stop (s : PlayerState) (trackId : String)
    (a : AudioElem) (ok : Bool)
    (hlk : lookupId trackId s.audios = some a)
    (hpl : s.playing = some trackId) :
    (handlePlay s trackId ok).playing = none ∧
    lookupId trackId (handlePlay s trackId ok).audios = some ⟨true, 0⟩ ∧
    ∀ p ∈ (handlePlay s trackId ok).audios,
      p.2.paused = true ∧ p.2.currentTime = 0 := by
  have h1 : handlePlay s trackId ok =
      ⟨updAudios s.audios fun _ _ => ⟨true, 0⟩, none⟩ := by
    simp [handlePlay, hlk, hpl]
  rw [h1]
  refine ⟨rfl, ?_, ?_⟩
  · rw [lookupId_updAudios, hlk]; rfl
  · intro p hp
    rcases List.mem_map.mp hp with ⟨q, _, rfl⟩
    exact ⟨rfl, rfl⟩

theorem play_same_track_toggles_stop_witness :
    lookupId "a" sampleSounding.audios = some ⟨false, 119⟩ ∧
    sampleSounding.playing = some "a" ∧
    ((handlePlay sampleSounding "a" true).playing = none ∧
      lookupId "a" (handlePlay sampleSounding "a" true).audios = some ⟨true, 0⟩ ∧
      ∀ p ∈ (handlePlay sampleSounding "a" true).audios,
        p.2.paused = true ∧ p.2.currentTime = 0) :=
  ⟨by decide, by decide,
    play_same_track_toggles_stop sampleSounding "a" ⟨false, 119⟩ true
      (by decide) (by decide)⟩

/-- C8: `releaseAll` empties the live set; a second call revokes nothing
    further and leaves the set empty again; one call revokes exactly the live
    locators, each occurring once; and on an empty set it is a no-op. -/
theorem releaseAll_exactly_once (l : Ledger) (h : l.live.Nodup) :
    (releaseAll l).live = [] ∧
    (releaseAll (releaseAll l)).live = [] ∧
    (releaseAll (releaseAll l)).revoked = (releaseAll l).revoked ∧
    (releaseAll l).revoked = l.revoked ++ l.live ∧
    (∀ u ∈ l.live, l.live.count u = 1) ∧
    (l.live = [] → releaseAll l = l) := by
  refine ⟨rfl, rfl, by simp [releaseAll], rfl, ?_, ?_⟩
  · intro u hu
    exact List.count_eq_one_of_mem h hu
  · intro hnil
    obtain ⟨live, revoked⟩ := l
    simp only at hnil
    simp [releaseAll, hnil]

theorem releaseAll_exactly_once_witness :
    (Ledger.live ⟨["u1", "u2"], []⟩).Nodup ∧
    ((releaseAll ⟨["u1", "u2"], []⟩).live = [] ∧
      (releaseAll (releaseAll ⟨["u1", "u2"], []⟩)).live = [] ∧
      (releaseAll (releaseAll ⟨["u1", "u2"], []⟩)).revoked =
        (releaseAll ⟨["u1", "u2"], []⟩).revoked ∧
      (releaseAll ⟨["u1", "u2"], []⟩).revoked =
        Ledger.revoked ⟨["u1", "u2"], []⟩ ++ Ledger.live ⟨["u1", "u2"], []⟩ ∧
      (∀ u ∈ Ledger.live ⟨["u1", "u2"], []⟩,
        (Ledger.live ⟨["u1", "u2"], []⟩).count u = 1) ∧
      (Ledger.live ⟨["u1", "u2"], []⟩ = [] →
        releaseAll ⟨["u1", "u2"], []⟩ = ⟨["u1", "u2"], []⟩)) :=
  ⟨by decide, releaseAll_exactly_once ⟨["u1", "u2"], []⟩ (by decide)⟩

/-- C9 counterexample: for the file name `.mp3` a dot is present and the
    substring after the last dot is `mp3`, yet the code derives the sentinel
    `orig` and keeps the whole name as the base. -/
theorem extension_claim_counterexample :
    originalExtension (some ⟨".mp3", "audio/mpeg"⟩) = "orig" ∧
    baseFileName (some ⟨".mp3", "audio/mpeg"⟩) = ".mp3" ∧
    specExtension ".mp3" = some "mp3" ∧
    ("orig" : String) ≠ "mp3" ∧
    '.' ∈ (".mp3" : String).data := by
  decide

/-- C9 amended: when the last dot of the display name sits at a positive
    index, the name splits as base ++ "." ++ extension with a dot-free
    extension; when there is no dot, or the last dot is the leading
    character, the base is the whole name and the extension is the sentinel
    `orig`. -/
theorem extension_base_amended (f : InputAsset) :
    (lastIndexOf '.' f.name.data ≤ 0 →
      baseFileName (some f) = f.name ∧ originalExtension (some f) = "orig") ∧
    (0 < lastIndexOf '.' f.name.data →
      f.name.data =
        (baseFileName (some f)).data ++ '.' :: (originalExtension (some f)).data ∧
      '.' ∉ (originalExtension (some f)).data) := by
  constructor
  · intro h
    have hneg : ¬ (0 < lastIndexOf '.' f.name.data) := not_lt.mpr h
    exact ⟨by simp [baseFileName, hneg], by simp [originalExtension, hneg]⟩
  · intro h
    obtain ⟨hdec, hnot⟩ := lastIndexOf_nonneg_decomp '.' f.name.data (le_of_lt h)
    constructor
    · simp only [baseFileName, originalExtension, if_pos h]
      exact hdec.symm
    · simp only [originalExtension, if_pos h]
      exact hnot

theorem extension_base_amended_witness :
    0 < lastIndexOf '.' ("song.wav" : String).data ∧
    (("song.wav" : String).data =
        (baseFileName (some ⟨"song.wav", "audio/wav"⟩)).data ++
          '.' :: (originalExtension (some ⟨"song.wav", "audio/wav"⟩)).data ∧
      '.' ∉ (originalExtension (some ⟨"song.wav", "audio/wav"⟩)).data) :=
  ⟨by decide, (extension_base_amended ⟨"song.wav", "audio/wav"⟩).2 (by decide)⟩

/-! ## Transcode Orchestrator (`handleConvert`)

    The ffmpeg collaborator is abstracted by an oracle `ok` telling, per
    plan, whether its exec/read step succeeds, and `URL.createObjectURL` by a
    deterministic locator derived from the wrapped output's file name.
    `Date.now()` becomes the explicit argument `now`, and the
    `Math.random`-based `shuffle` becomes an explicit reordering function
    `shuf`, constrained to produce permutations where a theorem needs it. -/

/-- Embedding of one entry of `outputPlans`. -/
structure Plan where
  quality : Quality
  outputName : String
  command : List String
  mime : String
deriving DecidableEq, Repr

/-- Embedding of `getMimeByQuality` (`originalType || 'audio/mpeg'` falls
    back exactly on the empty string). -/
def getMimeByQuality (quality : Quality) (originalType : String) : String :=
  if quality = .original then
    (if originalType = "" then "audio/mpeg" else originalType)
  else "audio/mpeg"

/-- Embedding of the `outputPlans` literal of `handleConvert`. -/
def outputPlans (baseIdentifier inputName ext fileType : String) : List Plan :=
  [ { quality := .mp3_128
      outputName := baseIdentifier ++ "_128.mp3"
      command := ["-i", inputName, "-t", toString MAX_PLAY_SECONDS, "-c:a",
        "libmp3lame", "-b:a", "128k"]
      mime := getMimeByQuality .mp3_128 fileType },
    { quality := .mp3_320
      outputName := baseIdentifier ++ "_320.mp3"
      command := ["-i", inputName, "-t", toString MAX_PLAY_SECONDS, "-c:a",
        "libmp3lame", "-b:a", "320k"]
      mime := getMimeByQuality .mp3_320 fileType },
    { quality := .original
      outputName := baseIdentifier ++ "_original." ++ ext
      command := ["-i", inputName, "-t", toString MAX_PLAY_SECONDS, "-c", "copy"]
      mime := getMimeByQuality .original fileType } ]

/-- Model of `URL.createObjectURL`: a deterministic fresh locator derived
    from the output file name whose bytes the blob wraps. -/
def mkUrl (name : String) : String :=
  "blob:" ++ name

/-- The session identifier `baseIdentifier` of a conversion run. -/
def sessionId (file : Option InputAsset) (now : Nat) : String :=
  baseFileName file ++ "_" ++ toString now

/-- The component state touched by `handleConvert`: the hook state, the
    Resource Ledger, the playback refs, the engine's virtual file system,
    and the log of engine invocations. -/
structure AppState where
  coreLoaded : Bool
  file : Option InputAsset
  tracks : List QuizTrack
  answers : List (String × Option Quality)
  feedback : Option FeedbackState
  ledger : Ledger
  player : PlayerState
  vfs : List String
  execLog : List (List String)
deriving DecidableEq, Repr

/-- The typed outcome of a `handleConvert` call. -/
inductive ConvertOutcome
  | notReady
  | noInput
  | transcodeFailure
  | success
deriving DecidableEq, Repr

/-- Accumulator of the sequential plan loop of `handleConvert`. -/
structure RunAcc where
  ledger : Ledger
  vfs : List String
  execLog : List (List String)
  tracks : List QuizTrack
deriving DecidableEq, Repr

/-- Embedding of the `for (const plan of outputPlans)` loop: each iteration
    invokes the engine, and on success reads the output, wraps it into a
    locator registered with the Ledger and appends the `QuizTrack`; the first
    failing step aborts the loop. -/
def runPlans (base : String) (ok : Quality → Bool) :
    List Plan → RunAcc → RunAcc × Bool
  | [], acc => (acc, true)
  | plan :: rest, acc =>
    let acc1 : RunAcc := { acc with execLog := acc.execLog ++ [plan.command ++ [plan.outputName]] }
    if ok plan.quality then
      let url := mkUrl plan.outputName
      runPlans base ok rest
        { acc1 with
          vfs := acc1.vfs ++ [plan.outputName]
          ledger := registerUrl acc1.ledger url
          tracks := acc1.tracks ++
            [{ id := createTrackId base plan.quality
               quality := plan.quality
               fileName := plan.outputName
               url := url }] }
    else (acc1, false)

/-- Feedback message shown when ffmpeg is not loaded yet. -/
def notReadyMsg : String := "まずはFFmpegを読み込んでください。"

/-- Feedback message shown when no file is selected. -/
def noInputMsg : String := "楽曲を選択してください。"

/-- Feedback message shown when the conversion succeeds. -/
def convertDoneMsg : String :=
  "変換が完了しました。曲を再生して当ててみよう！(再生は冒頭" ++
    toString MAX_PLAY_SECONDS ++ "秒まで)"

/-- Feedback message shown when some transcode step fails. -/
def convertFailMsg : String := "音声変換に失敗しました。別のファイルでお試しください。"

/-- Embedding of `handleConvert`.  Guard checks come first; then the previous
    session's audio refs are reset, its locators revoked and its tracks
    cleared; then the input is written to the virtual file system and the
    three plans run sequentially; on success the shuffled tracks are exposed
    and the answer map reset; on failure only the error feedback is set; and
    the `finally` block deletes every session-scoped virtual file. -/
def handleConvert (s : AppState) (ok : Quality → Bool) (now : Nat)
    (shuf : List QuizTrack → List QuizTrack) : AppState × ConvertOutcome :=
  if s.coreLoaded then
    match s.file with
    | none => ({ s with feedback := some ⟨noInputMsg, .error⟩ }, .noInput)
    | some f =>
      let base := sessionId (some f) now
      let ext := originalExtension (some f)
      let s1 : AppState :=
        { s with
          player := ⟨[], none⟩
          ledger := releaseAll s.ledger
          tracks := [] }
      let inputName := base ++ "_input." ++ ext
      let plans := outputPlans base inputName ext f.mime
      let res := runPlans base ok plans ⟨s1.ledger, s1.vfs ++ [inputName], s1.execLog, []⟩
      let acc := res.1
      let s2 : AppState :=
        if res.2 then
          let shuffled := shuf acc.tracks
          { s1 with
            ledger := acc.ledger
            vfs := acc.vfs
            execLog := acc.execLog
            tracks := shuffled
            answers := shuffled.map (fun t => (t.id, (none : Option Quality)))
            feedback := some ⟨convertDoneMsg, .success⟩ }
        else
          { s1 with
            ledger := acc.ledger
            vfs := acc.vfs
            execLog := acc.execLog
            feedback := some ⟨convertFailMsg, .error⟩ }
      ({ s2 with vfs := s2.vfs.filter (fun n => !(n.startsWith base)) },
        if res.2 then .success else .transcodeFailure)
  else
    ({ s with feedback := some ⟨notReadyMsg, .error⟩ }, .notReady)

theorem list_append_cancel {α : Type} (as bs cs : List α)
    (h : as ++ bs = as ++ cs) : bs = cs := by
  induction as with
  | nil => simpa using h
  | cons a as ih =>
    simp only [List.cons_append, List.cons.injEq] at h
    exact ih h.2

theorem append_right_ne (s a b : String) (h : a ≠ b) : s ++ a ≠ s ++ b := by
  intro he
  apply h
  have hd : s.data ++ a.data = s.data ++ b.data := by
    rw [← String.data_append, ← String.data_append, he]
  have h2 := list_append_cancel s.data a.data b.data hd
  cases a; cases b
  simp only at h2
  rw [h2]

theorem ne_of_length_ne (a b : String) (h : a.length ≠ b.length) : a ≠ b := by
  intro he
  exact h (he ▸ rfl)

theorem mkUrl_ne_320_128 (base : String) :
    mkUrl (base ++ "_320.mp3") ≠ mkUrl (base ++ "_128.mp3") :=
  append_right_ne "blob:" _ _ (append_right_ne base _ _ (by decide))

theorem mkUrl_ne_orig_128 (base ext : String) :
    mkUrl (base ++ "_original." ++ ext) ≠ mkUrl (base ++ "_128.mp3") := by
  apply ne_of_length_ne
  simp only [mkUrl, String.length_append]
  have h1 : ("_original." : String).length = 10 := by decide
  have h2 : ("_128.mp3" : String).length = 8 := by decide
  omega

theorem mkUrl_ne_orig_320 (base ext : String) :
    mkUrl (base ++ "_original." ++ ext) ≠ mkUrl (base ++ "_320.mp3") := by
  apply ne_of_length_ne
  simp only [mkUrl, String.length_append]
  have h1 : ("_original." : String).length = 10 := by decide
  have h2 : ("_320.mp3" : String).length = 8 := by decide
  omega

/-- A ready-to-convert component state with a selected file. -/
def stateReady : AppState :=
  { coreLoaded := true
    file := some ⟨"song.wav", "audio/wav"⟩
    tracks := []
    answers := []
    feedback := none
    ledger := ⟨[], []⟩
    player := ⟨[], none⟩
    vfs := []
    execLog := [] }

/-- The same state before ffmpeg-core has been loaded. -/
def stateNotReady : AppState :=
  { stateReady with coreLoaded := false }

/-- A loaded-core state with no file selected. -/
def stateNoFile : AppState :=
  { stateReady with file := none }

/-- C5: with the engine not ready, or with no input selected, `handleConvert`
    only sets the error feedback — the outcome is `NotReady` resp. `NoInput`
    and every other field (tracks, answers, ledger, playback refs, virtual
    file system, engine invocation log) is left untouched. -/
theorem convert_guards_fail_fast (s : AppState) (ok : Quality → Bool) (now : Nat)
    (shuf : List QuizTrack → List QuizTrack) :
    (s.coreLoaded = false →
      handleConvert s ok now shuf =
        ({ s with feedback := some ⟨notReadyMsg, .error⟩ }, .notReady)) ∧
    (s.coreLoaded = true → s.file = none →
      handleConvert s ok now shuf =
        ({ s with feedback := some ⟨noInputMsg, .error⟩ }, .noInput)) := by
  constructor
  · intro h
    simp [handleConvert, h]
  · intro h hf
    simp [handleConvert, h, hf]

theorem convert_guards_fail_fast_witness :
    stateNotReady.coreLoaded = false ∧
    handleConvert stateNotReady (fun _ => true) 5 id =
      ({ stateNotReady with feedback := some ⟨notReadyMsg, .error⟩ }, .notReady) ∧
    stateNoFile.coreLoaded = true ∧
    stateNoFile.file = none ∧
    handleConvert stateNoFile (fun _ => true) 5 id =
      ({ stateNoFile with feedback := some ⟨noInputMsg, .error⟩ }, .noInput) :=
  ⟨rfl, (convert_guards_fail_fast stateNotReady (fun _ => true) 5 id).1 rfl,
    rfl, rfl, (convert_guards_fail_fast stateNoFile (fun _ => true) 5 id).2 rfl rfl⟩

/-- C4: a fully successful conversion returns `success` and exposes exactly
    three tracks — exactly one per quality — each identified by the session
    identifier, a dash and its quality tag. -/
theorem convert_success_trackset (s : AppState) (ok : Quality → Bool) (now : Nat)
    (shuf : List QuizTrack → List QuizTrack) (f : InputAsset)
    (hcore : s.coreLoaded = true) (hfile : s.file = some f)
    (hok : ∀ q, ok q = true)
    (hshuf : ∀ l, (shuf l).Perm l) :
    (handleConvert s ok now shuf).2 = .success ∧
    (handleConvert s ok now shuf).1.tracks.length = 3 ∧
    (∀ q : Quality,
      (handleConvert s ok now shuf).1.tracks.countP (fun t => t.quality == q) = 1) ∧
    (∀ t ∈ (handleConvert s ok now shuf).1.tracks,
      t.id = createTrackId (sessionId (some f) now) t.quality) := by
  have hne21 := mkUrl_ne_320_128 (sessionId (some f) now)
  have hne31 := mkUrl_ne_orig_128 (sessionId (some f) now) (originalExtension (some f))
  have hne32 := mkUrl_ne_orig_320 (sessionId (some f) now) (originalExtension (some f))
  have htracks : (handleConvert s ok now shuf).1.tracks =
      shuf
        [⟨createTrackId (sessionId (some f) now) .mp3_128, .mp3_128,
            sessionId (some f) now ++ "_128.mp3",
            mkUrl (sessionId (some f) now ++ "_128.mp3")⟩,
          ⟨createTrackId (sessionId (some f) now) .mp3_320, .mp3_320,
            sessionId (some f) now ++ "_320.mp3",
            mkUrl (sessionId (some f) now ++ "_320.mp3")⟩,
          ⟨createTrackId (sessionId (some f) now) .original, .original,
            sessionId (some f) now ++ "_original." ++ originalExtension (some f),
            mkUrl (sessionId (some f) now ++ "_original." ++ originalExtension (some f))⟩] ∧
      (handleConvert s ok now shuf).2 = .success := by
    simp [handleConvert, hcore, hfile, outputPlans, runPlans, hok, registerUrl,
      hne21, hne31, hne32]
  obtain ⟨htr, hout⟩ := htracks
  have hperm := hshuf
    [⟨createTrackId (sessionId (some f) now) .mp3_128, .mp3_128,
        sessionId (some f) now ++ "_128.mp3",
        mkUrl (sessionId (some f) now ++ "_128.mp3")⟩,
      ⟨createTrackId (sessionId (some f) now) .mp3_320, .mp3_320,
        sessionId (some f) now ++ "_320.mp3",
        mkUrl (sessionId (some f) now ++ "_320.mp3")⟩,
      ⟨createTrackId (sessionId (some f) now) .original, .original,
        sessionId (some f) now ++ "_original." ++ originalExtension (some f),
        mkUrl (sessionId (some f) now ++ "_original." ++ originalExtension (some f))⟩]
  refine ⟨hout, ?_, ?_, ?_⟩
  · rw [htr, hperm.length_eq]
    rfl
  · intro q
    rw [htr, hperm.countP_eq]
    cases q <;> simp [List.countP_cons]
  · intro t ht
    rw [htr] at ht
    have hmem := (hperm.mem_iff).mp ht
    simp only [List.mem_cons, List.not_mem_nil, or_false] at hmem
    rcases hmem with h | h | h <;> rw [h]

theorem convert_success_trackset_witness :
    stateReady.coreLoaded = true ∧
    stateReady.file = some ⟨"song.wav", "audio/wav"⟩ ∧
    ((handleConvert stateReady (fun _ => true) 7 id).2 = .success ∧
      (handleConvert stateReady (fun _ => true) 7 id).1.tracks.length = 3 ∧
      (∀ q : Quality,
        (handleConvert stateReady (fun _ => true) 7 id).1.tracks.countP
          (fun t => t.quality == q) = 1) ∧
      (∀ t ∈ (handleConvert stateReady (fun _ => true) 7 id).1.tracks,
        t.id = createTrackId (sessionId (some ⟨"song.wav", "audio/wav"⟩) 7) t.quality)) :=
  ⟨rfl, rfl,
    convert_success_trackset stateReady (fun _ => true) 7 id ⟨"song.wav", "audio/wav"⟩
      rfl rfl (fun _ => rfl) (fun l => List.Perm.refl l)⟩

/-- A transcode oracle for which only the first (128 kbps) step succeeds. -/
def okOnly128 : Quality → Bool :=
  fun q => q == Quality.mp3_128

/-- C1 counterexample: when the second transcode step fails, the run returns
    `TranscodeFailure` with an empty track set, but the locator produced by
    the completed first step is still registered — live, never revoked — so
    the completed steps' resources are not discarded via the Ledger during
    the failing run. -/
theorem convert_failure_counterexample :
    (handleConvert stateReady okOnly128 7 id).2 = ConvertOutcome.transcodeFailure ∧
    (handleConvert stateReady okOnly128 7 id).1.tracks = [] ∧
    (handleConvert stateReady okOnly128 7 id).1.ledger.live =
      ["blob:song_7_128.mp3"] ∧
    (handleConvert stateReady okOnly128 7 id).1.ledger.live ≠ [] ∧
    (handleConvert stateReady okOnly128 7 id).1.ledger.revoked = [] := by
  refine ⟨rfl, rfl, rfl, by decide, rfl⟩

/-- C1 amended: when a transcode step fails, the remaining plans are aborted
    and `TranscodeFailure` is returned with an empty track set, but the
    resources produced by already-completed steps are not discarded during
    the run: their locators stay registered in the Ledger's live set, and the
    run revokes nothing beyond the initial session-replacement release. -/
theorem convert_failure_no_partial (s : AppState) (ok : Quality → Bool) (now : Nat)
    (shuf : List QuizTrack → List QuizTrack) (f : InputAsset)
    (hcore : s.coreLoaded = true) (hfile : s.file = some f)
    (h128 : ok Quality.mp3_128 = true)
    (hfail : ok Quality.mp3_320 = false ∨ ok Quality.original = false) :
    (handleConvert s ok now shuf).2 = .transcodeFailure ∧
    (handleConvert s ok now shuf).1.tracks = [] ∧
    (handleConvert s ok now shuf).1.ledger.revoked =
      s.ledger.revoked ++ s.ledger.live ∧
    mkUrl (sessionId (some f) now ++ "_128.mp3") ∈
      (handleConvert s ok now shuf).1.ledger.live ∧
    (ok Quality.mp3_320 = false →
      (handleConvert s ok now shuf).1.ledger.live =
        [mkUrl (sessionId (some f) now ++ "_128.mp3")] ∧
      (handleConvert s ok now shuf).1.execLog =
        s.execLog ++
          ((outputPlans (sessionId (some f) now)
              (sessionId (some f) now ++ "_input." ++ originalExtension (some f))
              (originalExtension (some f)) f.mime).take 2).map
            (fun p => p.command ++ [p.outputName])) ∧
    (ok Quality.mp3_320 = true →
      (handleConvert s ok now shuf).1.ledger.live =
        [mkUrl (sessionId (some f) now ++ "_128.mp3"),
          mkUrl (sessionId (some f) now ++ "_320.mp3")] ∧
      (handleConvert s ok now shuf).1.execLog =
        s.execLog ++
          (outputPlans (sessionId (some f) now)
              (sessionId (some f) now ++ "_input." ++ originalExtension (some f))
              (originalExtension (some f)) f.mime).map
            (fun p => p.command ++ [p.outputName])) := by
  have hne21 := mkUrl_ne_320_128 (sessionId (some f) now)
  cases h320 : ok Quality.mp3_320 with
  | false =>
    refine ⟨?_, ?_, ?_, ?_, ?_, ?_⟩
    · simp [handleConvert, hcore, hfile, outputPlans, runPlans, h128, h320]
    · simp [handleConvert, hcore, hfile, outputPlans, runPlans, h128, h320]
    · simp [handleConvert, hcore, hfile, outputPlans, runPlans, h128, h320,
        registerUrl, releaseAll]
    · simp [handleConvert, hcore, hfile, outputPlans, runPlans, h128, h320,
        registerUrl, releaseAll]
    · intro _
      refine ⟨?_, ?_⟩
      · simp [handleConvert, hcore, hfile, outputPlans, runPlans, h128, h320,
          registerUrl, releaseAll]
      · simp [handleConvert, hcore, hfile, outputPlans, runPlans, h128, h320]
    · intro h
      simp [h320] at h
  | true =>
    have horig : ok Quality.original = false := by
      rcases hfail with h | h
      · rw [h320] at h; cases h
      · exact h
    refine ⟨?_, ?_, ?_, ?_, ?_, ?_⟩
    · simp [handleConvert, hcore, hfile, outputPlans, runPlans, h128, h320, horig]
    · simp [handleConvert, hcore, hfile, outputPlans, runPlans, h128, h320, horig]
    · simp [handleConvert, hcore, hfile, outputPlans, runPlans, h128, h320, horig,
        registerUrl, releaseAll, hne21]
    · simp [handleConvert, hcore, hfile, outputPlans, runPlans, h128, h320, horig,
        registerUrl, releaseAll, hne21]
    · intro h
      simp [h320] at h
    · intro _
      refine ⟨?_, ?_⟩
      · simp [handleConvert, hcore, hfile, outputPlans, runPlans, h128, h320, horig,
          registerUrl, releaseAll, hne21]
      · simp [handleConvert, hcore, hfile, outputPlans, runPlans, h128, h320, horig]

theorem convert_failure_no_partial_witness :
    stateReady.coreLoaded = true ∧
    okOnly128 Quality.mp3_128 = true ∧
    okOnly128 Quality.mp3_320 = false ∧
    ((handleConvert stateReady okOnly128 7 id).2 = .transcodeFailure ∧
      (handleConvert stateReady okOnly128 7 id).1.tracks = [] ∧
      (handleConvert stateReady okOnly128 7 id).1.ledger.revoked =
        stateReady.ledger.revoked ++ stateReady.ledger.live ∧
      mkUrl (sessionId (some ⟨"song.wav", "audio/wav"⟩) 7 ++ "_128.mp3") ∈
        (handleConvert stateReady okOnly128 7 id).1.ledger.live ∧
      (okOnly128 Quality.mp3_320 = false →
        (handleConvert stateReady okOnly128 7 id).1.ledger.live =
          [mkUrl (sessionId (some ⟨"song.wav", "audio/wav"⟩) 7 ++ "_128.mp3")] ∧
        (handleConvert stateReady okOnly128 7 id).1.execLog =
          stateReady.execLog ++
            ((outputPlans (sessionId (some ⟨"song.wav", "audio/wav"⟩) 7)
                (sessionId (some ⟨"song.wav", "audio/wav"⟩) 7 ++ "_input." ++
                  originalExtension (some ⟨"song.wav", "audio/wav"⟩))
                (originalExtension (some ⟨"song.wav", "audio/wav"⟩))
                (InputAsset.mime ⟨"song.wav", "audio/wav"⟩)).take 2).map
              (fun p => p.command ++ [p.outputName])) ∧
      (okOnly128 Quality.mp3_320 = true →
        (handleConvert stateReady okOnly128 7 id).1.ledger.live =
          [mkUrl (sessionId (some ⟨"song.wav", "audio/wav"⟩) 7 ++ "_128.mp3"),
            mkUrl (sessionId (some ⟨"song.wav", "audio/wav"⟩) 7 ++ "_320.mp3")] ∧
        (handleConvert stateReady okOnly128 7 id).1.execLog =
          stateReady.execLog ++
            (outputPlans (sessionId (some ⟨"song.wav", "audio/wav"⟩) 7)
                (sessionId (some ⟨"song.wav", "audio/wav"⟩) 7 ++ "_input." ++
                  originalExtension (some ⟨"song.wav", "audio/wav"⟩))
                (originalExtension (some ⟨"song.wav", "audio/wav"⟩))
                (InputAsset.mime ⟨"song.wav", "audio/wav"⟩)).map
              (fun p => p.command ++ [p.outputName]))) :=
  ⟨rfl, rfl, rfl,
    convert_failure_no_partial stateReady okOnly128 7 id ⟨"song.wav", "audio/wav"⟩
      rfl rfl rfl (Or.inl rfl)⟩

/-! ## Answer Evaluator (`checkAnswers`) -/

/-- JavaScript truthy access `selectedAnswers[track.id]`: a missing entry and
    a `null` entry are both "unanswered". -/
def lookupAnswer (answers : List (String × Option Quality)) (id : String) :
    Option Quality :=
  match lookupId id answers with
  | none => none
  | some a => a

/-- The typed outcome of `checkAnswers`. -/
inductive CheckOutcome
  | emptyTrackSet
  | incompleteAnswers
  | report (correct : Nat) (total : Nat) (details : List String) (tone : Tone)
deriving DecidableEq, Repr

/-- Embedding of the scoring loop of `checkAnswers`: walks the tracks in
    presentation order with a one-based index, counting correct guesses and
    building the per-track detail lines. -/
def checkLoop (answers : List (String × Option Quality)) :
    List QuizTrack → Nat → Nat × List String
  | [], _ => (0, [])
  | t :: rest, index =>
    let answer := lookupAnswer answers t.id
    let isCorrect := answer == some t.quality
    let label := "曲" ++ toString (index + 1)
    let actual := qualityLabel t.quality
    let guessed := match answer with
      | some a => qualityLabel a
      | none => "未選択"
    let line := label ++ ": 正解 " ++ actual ++ " / あなたの選択 " ++ guessed
    let r := checkLoop answers rest (index + 1)
    ((if isCorrect then 1 else 0) + r.1, line :: r.2)

/-- Embedding of `checkAnswers`: validation first (empty track set, then any
    unanswered track), otherwise the scored report whose tone is success
    exactly when every guess is correct. -/
def checkAnswers (tracks : List QuizTrack)
    (answers : List (String × Option Quality)) : CheckOutcome :=
  if tracks.length = 0 then
    .emptyTrackSet
  else if tracks.any (fun t => (lookupAnswer answers t.id).isNone) then
    .incompleteAnswers
  else
    let r := checkLoop answers tracks 0
    .report r.1 tracks.length r.2
      (if r.1 = tracks.length then .success else .error)

/-- Feedback message of `checkAnswers` when no tracks exist yet. -/
def emptyTracksMsg : String := "まずは曲を変換してください。"

/-- Feedback message of `checkAnswers` when some guess is missing. -/
def incompleteMsg : String := "すべての曲で予想を選択してください。"

/-- `checkAnswers` as it acts on the component state: only the feedback is
    written; tracks and answers are read, never changed. -/
def checkAnswersRun (s : AppState) : AppState :=
  match checkAnswers s.tracks s.answers with
  | .emptyTrackSet => { s with feedback := some ⟨emptyTracksMsg, .error⟩ }
  | .incompleteAnswers => { s with feedback := some ⟨incompleteMsg, .error⟩ }
  | .report correct total details tone =>
    { s with
      feedback := some
        ⟨String.intercalate "\n"
          ((toString total ++ "問中" ++ toString correct ++ "問正解でした。") :: details),
          tone⟩ }

theorem checkLoop_correct_countP (answers : List (String × Option Quality))
    (ts : List QuizTrack) (index : Nat) :
    (checkLoop answers ts index).1 =
      ts.countP (fun t => lookupAnswer answers t.id == some t.quality) := by
  induction ts generalizing index with
  | nil => simp [checkLoop]
  | cons t rest ih =>
    simp only [checkLoop, List.countP_cons, ih]
    by_cases h : (lookupAnswer answers t.id == some t.quality) = true
    · simp [h]
      omega
    · simp [h]

/-- C6: on a non-empty, fully answered track set, `checkAnswers` reports the
    number of tracks whose guess equals their true quality out of the track
    count, with tone success exactly on a full score; an exactly-matching
    answer map scores full with success tone, an all-wrong one scores zero
    with a non-success tone. -/
theorem checkAnswers_scoring (tracks : List QuizTrack)
    (answers : List (String × Option Quality))
    (hne : tracks ≠ [])
    (hall : ∀ t ∈ tracks, lookupAnswer answers t.id ≠ none) :
    (∃ d, checkAnswers tracks answers =
      .report (tracks.countP (fun t => lookupAnswer answers t.id == some t.quality))
        tracks.length d
        (if tracks.countP (fun t => lookupAnswer answers t.id == some t.quality) =
            tracks.length then Tone.success else Tone.error)) ∧
    ((∀ t ∈ tracks, lookupAnswer answers t.id = some t.quality) →
      ∃ d, checkAnswers tracks answers =
        .report tracks.length tracks.length d Tone.success) ∧
    ((∀ t ∈ tracks, lookupAnswer answers t.id ≠ some t.quality) →
      ∃ d, checkAnswers tracks answers =
        .report 0 tracks.length d Tone.error) := by
  have hlen : ¬ tracks.length = 0 := by
    simpa [List.length_eq_zero] using hne
  have hany : tracks.any (fun t => (lookupAnswer answers t.id).isNone) = false := by
    rw [List.any_eq_false]
    intro t ht
    simp only [Option.isNone_iff_eq_none]
    exact hall t ht
  have hmain : checkAnswers tracks answers =
      .report (tracks.countP (fun t => lookupAnswer answers t.id == some t.quality))
        tracks.length (checkLoop answers tracks 0).2
        (if tracks.countP (fun t => lookupAnswer answers t.id == some t.quality) =
            tracks.length then Tone.success else Tone.error) := by
    simp [checkAnswers, hlen, hany, checkLoop_correct_countP]
  refine ⟨⟨_, hmain⟩, ?_, ?_⟩
  · intro hright
    have hcnt : tracks.countP (fun t => lookupAnswer answers t.id == some t.quality) =
        tracks.length := by
      apply List.countP_eq_length.mpr
      intro t ht
      simp [hright t ht]
    refine ⟨(checkLoop answers tracks 0).2, ?_⟩
    rw [hmain, hcnt, if_pos rfl]
  · intro hwrong
    have hcnt : tracks.countP (fun t => lookupAnswer answers t.id == some t.quality) =
        0 := by
      apply List.countP_eq_zero.mpr
      intro t ht
      simp [hwrong t ht]
    refine ⟨(checkLoop answers tracks 0).2, ?_⟩
    rw [hmain, hcnt, if_neg (fun h => hlen h.symm)]

/-- A shuffled three-track session with known ground truth. -/
def sampleTracks : List QuizTrack :=
  [⟨"t1", .mp3_128, "f1", "u1"⟩, ⟨"t2", .mp3_320, "f2", "u2"⟩,
    ⟨"t3", .original, "f3", "u3"⟩]

/-- An answer map matching `sampleTracks` exactly. -/
def sampleRightAnswers : List (String × Option Quality) :=
  [("t1", some .mp3_128), ("t2", some .mp3_320), ("t3", some .original)]

theorem checkAnswers_scoring_witness :
    sampleTracks ≠ [] ∧
    (∀ t ∈ sampleTracks, lookupAnswer sampleRightAnswers t.id ≠ none) ∧
    ((∃ d, checkAnswers sampleTracks sampleRightAnswers =
      .report (sampleTracks.countP
          (fun t => lookupAnswer sampleRightAnswers t.id == some t.quality))
        sampleTracks.length d
        (if sampleTracks.countP
            (fun t => lookupAnswer sampleRightAnswers t.id == some t.quality) =
            sampleTracks.length then Tone.success else Tone.error)) ∧
    ((∀ t ∈ sampleTracks, lookupAnswer sampleRightAnswers t.id = some t.quality) →
      ∃ d, checkAnswers sampleTracks sampleRightAnswers =
        .report sampleTracks.length sampleTracks.length d Tone.success) ∧
    ((∀ t ∈ sampleTracks, lookupAnswer sampleRightAnswers t.id ≠ some t.quality) →
      ∃ d, checkAnswers sampleTracks sampleRightAnswers =
        .report 0 sampleTracks.length d Tone.error)) :=
  ⟨by decide, by decide,
    checkAnswers_scoring sampleTracks sampleRightAnswers (by decide) (by decide)⟩

/-- C7: `checkAnswers` fails with `EmptyTrackSet` exactly when the track set
    is empty, fails with `IncompleteAnswers` exactly when it is non-empty and
    some track's entry is unanswered, and in every case leaves the track set
    and the answer map unchanged. -/
theorem checkAnswers_validation (s : AppState) :
    (checkAnswers s.tracks s.answers = .emptyTrackSet ↔ s.tracks = []) ∧
    (checkAnswers s.tracks s.answers = .incompleteAnswers ↔
      (s.tracks ≠ [] ∧ ∃ t ∈ s.tracks, lookupAnswer s.answers t.id = none)) ∧
    (checkAnswersRun s).tracks = s.tracks ∧
    (checkAnswersRun s).answers = s.answers := by
  refine ⟨?_, ?_, ?_, ?_⟩
  · by_cases he : s.tracks = []
    · simp [checkAnswers, he]
    · have hlen : ¬ s.tracks.length = 0 := by
        simpa [List.length_eq_zero] using he
      by_cases ha : s.tracks.any (fun t => (lookupAnswer s.answers t.id).isNone) = true
      · simp [checkAnswers, hlen, ha, he]
      · have haf := Bool.eq_false_iff.mpr ha
        simp [checkAnswers, hlen, haf, he]
  · by_cases he : s.tracks = []
    · simp [checkAnswers, he]
    · have hlen : ¬ s.tracks.length = 0 := by
        simpa [List.length_eq_zero] using he
      by_cases ha : s.tracks.any (fun t => (lookupAnswer s.answers t.id).isNone) = true
      · have ha2 := ha
        rw [List.any_eq_true] at ha2
        simp only [Option.isNone_iff_eq_none] at ha2
        simp [checkAnswers, hlen, ha, he, ha2]
      · have haf := Bool.eq_false_iff.mpr ha
        have haf2 := haf
        rw [List.any_eq_false] at haf2
        simp only [Option.isNone_iff_eq_none] at haf2
        simp only [checkAnswers, if_neg hlen, haf]
        constructor
        · intro h
          cases h
        · rintro ⟨-, t, ht, hnone⟩
          exact absurd hnone (haf2 t ht)
  · rcases h : checkAnswers s.tracks s.answers <;> simp [checkAnswersRun, h]
  · rcases h : checkAnswers s.tracks s.answers <;> simp [checkAnswersRun, h]
